import Mathlib

/-
Verification development for the ingestion-and-matching core of the
pvr.xtreamcodes PVR client (src/xtream_client.cpp, src/dispatcharr_client.cpp).

The C++ sources are shallowly embedded here:
* C++ `std::string` values are modelled as `List Char`, one `Char` per byte
  (all inputs of interest are byte strings; decoded UTF-8 output bytes are
  represented as `Char.ofNat` of the byte value).
* machine integers (`int`, `long`, `time_t`, `long long`) are modelled as
  `Int`, with explicit reduction modulo 2 ^ 32 (`toInt32`) exactly where the
  C++ code performs a `static_cast<int>`; `long` is LP64 (64-bit), and
  `strtol` saturates at the 64-bit bounds as glibc does.
* fallible extraction returns `Option`.
* the XMLTV document is embedded post-XML-parse, as the lists of `<channel>`
  and `<programme>` elements of the `<tv>` root, with attribute/child text
  values as byte strings (pugixml,the XML library, returns "" for a missing
  attribute or child text, so a missing value and an empty one coincide, as
  they do in the C++ code).
* `mktime` is modelled as the UTC civil-to-epoch conversion with libc's
  field normalization; only timezone-independent properties (ordering,
  equality, zero-ness of timestamps) are stated about its results.
-/

namespace XC

/-- C `isspace` in the default locale: space, \t, \n, \v, \f, \r. -/
def csIsSpace (c : Char) : Bool :=
  c = ' ' || c = '\t' || c = '\n' || c = '\r' || c = Char.ofNat 11 || c = Char.ofNat 12

/-- C `tolower` in the default locale, applied to one byte. -/
def toLowerByte (c : Char) : Char :=
  if 'A' ≤ c ∧ c ≤ 'Z' then Char.ofNat (c.toNat + 32) else c

/-- `ToLower` from xtream_client.cpp: bytewise `tolower` over a string. -/
def toLowerStr (s : List Char) : List Char :=
  s.map toLowerByte

/-- Value of a decimal digit string, as accumulated by the C++ parsing loops
(`v = v * 10 + (c - '0')`, with `v` modelled unbounded). -/
def natOfDigits (l : List Char) : Nat :=
  l.foldl (fun a c => a * 10 + (c.toNat - 48)) 0

/-! ## Array Scanner: `ForEachTopLevelObjectSpan` (xtream_client.cpp) -/

/-- Loop state of `ForEachTopLevelObjectSpan`: the in-string flag, the escape
flag, the nesting depth, the pending object start offset, plus the spans
reported so far and the `any` result flag. -/
structure XSt where
  inString : Bool
  escape : Bool
  depth : Int
  objStart : Option Nat
  spans : List (Nat × Nat)
  any : Bool
deriving DecidableEq, Repr

/-- One iteration of the `ForEachTopLevelObjectSpan` loop body on character
`c` at offset `i` (xtream_client.cpp lines 352-399). -/
def xstep (st : XSt) (i : Nat) (c : Char) : XSt :=
  if st.inString then
    if st.escape then { st with escape := false }
    else if c = '\\' then { st with escape := true }
    else if c = '"' then { st with inString := false }
    else st
  else if c = '"' then { st with inString := true }
  else if c = '{' then
    if st.depth = 0 then { st with depth := st.depth + 1, objStart := some i }
    else { st with depth := st.depth + 1 }
  else if c = '}' then
    match st.objStart with
    | some s =>
      if st.depth - 1 = 0 then
        { st with depth := st.depth - 1, objStart := none,
                  spans := st.spans ++ [(s, i + 1)], any := true }
      else { st with depth := st.depth - 1 }
    | none => { st with depth := st.depth - 1 }
  else st

/-- The scanning loop, carrying the global character offset. -/
def xscanAux : Nat → XSt → List Char → XSt
  | _, st, [] => st
  | i, st, c :: cs => xscanAux (i + 1) (xstep st i c) cs

/-- `ForEachTopLevelObjectSpan` (xtream_client.cpp lines 337-402): skip
leading whitespace, require `[`, then scan to the end of the input collecting
top-level `{...}` spans. Returns the C++ `bool` result (the `any` flag)
paired with the spans handed to the callback. -/
def forEachTopLevelObjectSpan (json : List Char) : Bool × List (Nat × Nat) :=
  let ws := (json.takeWhile csIsSpace).length
  match json.dropWhile csIsSpace with
  | '[' :: rest =>
    let st := xscanAux ws ⟨false, false, 0, none, [], false⟩ ('[' :: rest)
    (st.any, st.spans)
  | _ => (false, [])

/-! ## Array Scanner: `ForEachObjectInArray` (dispatcharr_client.cpp) -/

/-- Loop state of `ForEachObjectInArray`; `halted` records that the
`break` on a top-level `]` has fired. -/
structure DSt where
  i : Nat
  inString : Bool
  escape : Bool
  depth : Int
  objStart : Option Nat
  spans : List (Nat × Nat)
  halted : Bool
deriving DecidableEq, Repr

/-- The body of the `ForEachObjectInArray` loop for character `c`
(dispatcharr_client.cpp lines 226-248), before the offset increment. -/
def dcore (st : DSt) (c : Char) : DSt :=
  if st.inString then
    if st.escape then { st with escape := false }
    else if c = '\\' then { st with escape := true }
    else if c = '"' then { st with inString := false }
    else st
  else if c = '"' then { st with inString := true }
  else if c = '{' then
    if st.depth = 0 then { st with depth := st.depth + 1, objStart := some st.i }
    else { st with depth := st.depth + 1 }
  else if c = '}' then
    match st.objStart with
    | some s =>
      if st.depth - 1 = 0 then
        { st with depth := st.depth - 1, objStart := none,
                  spans := st.spans ++ [(s, st.i + 1)] }
      else { st with depth := st.depth - 1 }
    | none => { st with depth := st.depth - 1 }
  else if c = ']' ∧ st.depth = 0 then { st with halted := true }
  else st

/-- One iteration of `ForEachObjectInArray`: a no-op once halted, otherwise
the loop body followed by the offset increment (skipped on `break`). -/
def dstep (st : DSt) (c : Char) : DSt :=
  if st.halted then st
  else
    let st1 := dcore st c
    if st1.halted then st1 else { st1 with i := st1.i + 1 }

/-- The `ForEachObjectInArray` scanning loop over a character list. -/
def dscan (st : DSt) (cs : List Char) : DSt :=
  cs.foldl dstep st

/-- `ForEachObjectInArray` (dispatcharr_client.cpp lines 213-250): skip
leading whitespace, require `[`, then scan, breaking at the matching
top-level `]`. Returns the C++ `bool` result (true whenever the input began
with `[`) paired with the spans handed to the callback. -/
def forEachObjectInArray (json : List Char) : Bool × List (Nat × Nat) :=
  let ws := (json.takeWhile csIsSpace).length
  match json.dropWhile csIsSpace with
  | '[' :: rest =>
    let st := dscan ⟨ws, false, false, 0, none, [], false⟩ ('[' :: rest)
    (true, st.spans)
  | _ => (false, [])

/-! ## Field Extractor (xtream_client.cpp lines 404-632) -/

/-- `FindKeyPos` core: first offset at which `needle` occurs in `hay`
(`std::string::find`). -/
def findSubstrAux (needle : List Char) : List Char → Nat → Option Nat
  | [], i => if needle = [] then some i else none
  | c :: cs, i =>
    if needle.isPrefixOf (c :: cs) then some i else findSubstrAux needle cs (i + 1)

/-- `obj.find(needle)` as used by `FindKeyPos`. -/
def findSubstr (hay needle : List Char) : Option Nat :=
  findSubstrAux needle hay 0

/-- `obj.find(c, pos)`: first offset `≥ pos` holding character `c`. -/
def findCharFrom (l : List Char) (c : Char) (pos : Nat) : Option Nat :=
  match findSubstr (l.drop pos) [c] with
  | some off => some (pos + off)
  | none => none

/-- `FindKeyPos (xtream_client.cpp lines 404-409)`: locate the literal token
`"key"` inside the object span. -/
def findKeyPos (obj key : List Char) : Option Nat :=
  findSubstr obj ('"' :: key ++ ['"'])

/-- The two's-complement effect of C++ `static_cast<int>` on a wider value
(well-defined wrap on every supported compiler). -/
def toInt32 (v : Int) : Int :=
  let m := v % 4294967296
  if m ≥ 2147483648 then m - 4294967296 else m

/-- Digit run of `ParseIntAt`: optional `-`, then decimal digits accumulated
into a (here unbounded) `long long`, truncated by the final
`static_cast<int>`. `none` when no digit is found. -/
def parseDigitsInt (l : List Char) : Option Int :=
  match l with
  | '-' :: r =>
    let ds := r.takeWhile Char.isDigit
    if ds = [] then none else some (toInt32 (-(natOfDigits ds : Int)))
  | r =>
    let ds := r.takeWhile Char.isDigit
    if ds = [] then none else some (toInt32 (natOfDigits ds))

/-- `ParseIntAt` (xtream_client.cpp lines 411-460): skip whitespace, then
parse the digits, accepting a value wrapped in quotes. -/
def parseIntAt (obj : List Char) (pos : Nat) : Option Int :=
  match (obj.drop pos).dropWhile csIsSpace with
  | '"' :: r => parseDigitsInt r
  | r => parseDigitsInt r

/-- `ExtractIntField` (xtream_client.cpp lines 462-471). -/
def extractIntField (obj key : List Char) : Option Int :=
  match findKeyPos obj key with
  | none => none
  | some kpos =>
    match findCharFrom obj ':' kpos with
    | none => none
    | some cpos => parseIntAt obj (cpos + 1)

/-- `hexVal` (xtream_client.cpp lines 497-505); the C++ `-1` failure value is
modelled as `none`. -/
def hexVal (c : Char) : Option Nat :=
  if '0' ≤ c ∧ c ≤ '9' then some (c.toNat - 48)
  else if 'a' ≤ c ∧ c ≤ 'f' then some (10 + (c.toNat - 97))
  else if 'A' ≤ c ∧ c ≤ 'F' then some (10 + (c.toNat - 65))
  else none

/-- `appendUtf8` (xtream_client.cpp lines 507-530): the UTF-8 bytes of a code
point, each byte represented as a `Char` of that value. -/
def utf8Bytes (cp : Nat) : List Char :=
  if cp ≤ 0x7F then [Char.ofNat cp]
  else if cp ≤ 0x7FF then
    [Char.ofNat (0xC0 + cp / 64 % 32), Char.ofNat (0x80 + cp % 64)]
  else if cp ≤ 0xFFFF then
    [Char.ofNat (0xE0 + cp / 4096 % 16), Char.ofNat (0x80 + cp / 64 % 64),
     Char.ofNat (0x80 + cp % 64)]
  else
    [Char.ofNat (0xF0 + cp / 262144 % 8), Char.ofNat (0x80 + cp / 4096 % 64),
     Char.ofNat (0x80 + cp / 64 % 64), Char.ofNat (0x80 + cp % 64)]

/-- The low-surrogate lookahead of `ExtractStringField` (xtream_client.cpp
lines 571-591): the value of a following `\uXXXX` low surrogate, or `none`
when the shape, the hex digits, or the `0xDC00-0xDFFF` range check fail (the
C++ code then leaves `lo` outside the range and falls through). -/
def surrogateLow : List Char → Option Nat
  | '\\' :: 'u' :: l1 :: l2 :: l3 :: l4 :: _ =>
    match hexVal l1, hexVal l2, hexVal l3, hexVal l4 with
    | some y1, some y2, some y3, some y4 =>
      let lo := y1 * 4096 + y2 * 256 + y3 * 16 + y4
      if 0xDC00 ≤ lo ∧ lo ≤ 0xDFFF then some lo else none
    | _, _, _, _ => none
  | _ => none

/-- Bytes emitted for a single `\uXXXX` code unit once pairing is ruled out
(xtream_client.cpp lines 594-603): the replacement character for any lone
surrogate, the unit itself otherwise. -/
def cuBytes (cu : Nat) : List Char :=
  if 0xD800 ≤ cu ∧ cu ≤ 0xDFFF then utf8Bytes 0xFFFD else utf8Bytes cu

/-- The string-decoding loop of `ExtractStringField` (xtream_client.cpp lines
491-631), recursing over the characters still ahead of the cursor. The
escape flag and the accumulated output are explicit; `none` is the
unterminated-string failure. In the `\uXXXX` case the code advances the
cursor past exactly the characters it consumed: the five of `uXXXX`, plus
six more (`\uXXXX`) when a surrogate pair combines; the single C++ branch is
split into two arms here according to whether the input is long enough for
the pair lookahead to inspect a full second escape (when it is not,
`surrogateLow` is `none` and the code emits the lone-surrogate bytes of
`cuBytes`). -/
def decodeLoop : List Char → Bool → List Char → Option (List Char)
  | [], _, _ => none
  | 'u' :: h1 :: h2 :: h3 :: h4 :: '\\' :: 'u' :: l1 :: l2 :: l3 :: l4 :: rest3,
      true, acc =>
    match hexVal h1, hexVal h2, hexVal h3, hexVal h4 with
    | some x1, some x2, some x3, some x4 =>
      let cu := x1 * 4096 + x2 * 256 + x3 * 16 + x4
      if 0xD800 ≤ cu ∧ cu ≤ 0xDBFF then
        match surrogateLow ('\\' :: 'u' :: l1 :: l2 :: l3 :: l4 :: rest3) with
        | some lo =>
          decodeLoop rest3 false
            (acc ++ utf8Bytes (0x10000 + ((cu - 0xD800) * 1024 + (lo - 0xDC00))))
        | none =>
          decodeLoop ('\\' :: 'u' :: l1 :: l2 :: l3 :: l4 :: rest3) false
            (acc ++ utf8Bytes 0xFFFD)
      else
        decodeLoop ('\\' :: 'u' :: l1 :: l2 :: l3 :: l4 :: rest3) false
          (acc ++ cuBytes cu)
    | _, _, _, _ =>
      decodeLoop (h1 :: h2 :: h3 :: h4 :: '\\' :: 'u' :: l1 :: l2 :: l3 :: l4 :: rest3)
        false (acc ++ ['u'])
  | 'u' :: h1 :: h2 :: h3 :: h4 :: rest2, true, acc =>
    match hexVal h1, hexVal h2, hexVal h3, hexVal h4 with
    | some x1, some x2, some x3, some x4 =>
      decodeLoop rest2 false (acc ++ cuBytes (x1 * 4096 + x2 * 256 + x3 * 16 + x4))
    | _, _, _, _ => decodeLoop (h1 :: h2 :: h3 :: h4 :: rest2) false (acc ++ ['u'])
  | c :: rest, true, acc =>
    if c = '"' ∨ c = '\\' ∨ c = '/' then decodeLoop rest false (acc ++ [c])
    else if c = 'b' then decodeLoop rest false (acc ++ [Char.ofNat 8])
    else if c = 'f' then decodeLoop rest false (acc ++ [Char.ofNat 12])
    else if c = 'n' then decodeLoop rest false (acc ++ ['\n'])
    else if c = 'r' then decodeLoop rest false (acc ++ ['\r'])
    else if c = 't' then decodeLoop rest false (acc ++ ['\t'])
    else if c = 'u' then decodeLoop rest false (acc ++ ['u'])
    else decodeLoop rest false (acc ++ [c])
  | c :: rest, false, acc =>
    if c = '\\' then decodeLoop rest true acc
    else if c = '"' then some acc
    else decodeLoop rest false (acc ++ [c])

/-- `ExtractStringField` (xtream_client.cpp lines 473-632): locate the key
and the following `:`, skip whitespace, require `"`, then decode until the
unescaped closing quote. -/
def extractStringField (obj key : List Char) : Option (List Char) :=
  match findKeyPos obj key with
  | none => none
  | some kpos =>
    match findCharFrom obj ':' kpos with
    | none => none
    | some cpos =>
      match (obj.drop (cpos + 1)).dropWhile csIsSpace with
      | '"' :: body => decodeLoop body false []
      | _ => none

/-! ## Raw nested span helper: `ExtractRawJsonField` (dispatcharr_client.cpp) -/

/-- The depth loop of `ExtractRawJsonField` (dispatcharr_client.cpp lines
153-165), after the opening delimiter has been consumed: `o`/`cl` are the
open/close characters, `depth` the current count, `acc` the span so far. -/
def rawSpanFrom (o cl : Char) (depth : Int) (acc : List Char) :
    List Char → Option (List Char)
  | [] => none
  | c :: rest =>
    if c = o then rawSpanFrom o cl (depth + 1) (acc ++ [c]) rest
    else if c = cl then
      if depth - 1 = 0 then some (acc ++ [c])
      else rawSpanFrom o cl (depth - 1) (acc ++ [c]) rest
    else rawSpanFrom o cl depth (acc ++ [c]) rest

/-- `ExtractRawJsonField` (dispatcharr_client.cpp lines 139-167): locate the
key and `:`, skip whitespace, require `{` or `[`, then return the span up to
where the count of open minus close delimiters returns to zero. The loop
inspects raw characters only; it has no in-string tracking. -/
def extractRawJsonField (obj key : List Char) : Option (List Char) :=
  match findKeyPos obj key with
  | none => none
  | some kpos =>
    match findCharFrom obj ':' kpos with
    | none => none
    | some cpos =>
      match (obj.drop (cpos + 1)).dropWhile csIsSpace with
      | '{' :: rest => rawSpanFrom '{' '}' 1 ['{'] rest
      | '[' :: rest => rawSpanFrom '[' ']' 1 ['['] rest
      | _ => none

/-- Depth contribution of one character in the raw-span loop: only the open
and close delimiter characters count, string context notwithstanding. -/
def braceDelta (o cl c : Char) : Int :=
  if c = o then 1 else if c = cl then -1 else 0

/-- Raw delimiter depth of a character list: opens minus closes, counted over
all characters exactly as `ExtractRawJsonField`'s loop does. -/
def rawDepth (o cl : Char) (l : List Char) : Int :=
  (l.map (braceDelta o cl)).sum

/-! ## Category/Stream Decoder glue (xtream_client.cpp lines 737-764) -/

/-- Modelled from the spec: `Category` record (`category_id`, `category_name`);
the declaring header is not part of the sources. -/
structure LiveCategory where
  id : Int
  name : List Char
deriving DecidableEq, Repr

/-- The success flag and details string handed back by a fetch
(the transport fields are out of scope; details defaults shown as produced
by the parsing code paths). -/
structure FetchResultM where
  ok : Bool
  details : String
deriving DecidableEq, Repr

/-- The category-decoding callback of `FetchLiveCategories` applied over the
spans reported by the Array Scanner: objects without a `category_id` are
dropped, `category_name` is optional. -/
def decodeCategories (body : List Char) : List LiveCategory :=
  (forEachTopLevelObjectSpan body).2.foldl
    (fun acc sp =>
      let obj := (body.drop sp.1).take (sp.2 - sp.1)
      match extractIntField obj ("category_id".toList) with
      | none => acc
      | some i => acc ++ [⟨i, (extractStringField obj ("category_name".toList)).getD []⟩])
    []

/-- The post-HTTP portion of `FetchLiveCategories` (xtream_client.cpp lines
750-763): a false scanner result yields the not-a-JSON-array failure, an
empty decode yields the no-categories failure, otherwise success. -/
def fetchLiveCategoriesPure (body : List Char) : FetchResultM × List LiveCategory :=
  if (forEachTopLevelObjectSpan body).1 = false then
    (⟨false, "Categories response was not a JSON array"⟩, [])
  else
    let cats := decodeCategories body
    if cats = [] then (⟨false, "No categories parsed"⟩, [])
    else (⟨true, "OK"⟩, cats)

/-! ## XMLTV data model

The `LiveStream`, `EpgEntry` and `ChannelEpg` records are declared in the
xtream client header, which is not among the sources; their fields are
modelled from the spec's data model (section 3) and match every use in
xtream_client.cpp. -/

/-- Modelled from the spec: `Stream` record
`(id, categoryId, number, name, icon)`; `ParseXMLTV` reads `id` and `name`. -/
structure LiveStream where
  id : Int
  categoryId : Int
  number : Int
  name : List Char
  icon : List Char
deriving DecidableEq, Repr

/-- Modelled from the spec: `EpgEntry` record; `startTime`/`endTime` default
to 0 (unset) as the validity check in `ParseXMLTV` requires. -/
structure EpgEntry where
  channelId : List Char
  startTime : Int
  endTime : Int
  title : List Char
  description : List Char
  episodeName : List Char
  iconPath : List Char
  genreString : List Char
deriving DecidableEq, Repr

/-- Modelled from the spec: `ChannelEpg` record; `entries` is the ordered
start-time-to-entry mapping (C++ `std::map<time_t, EpgEntry>`), embedded as
a by-key-sorted association list. -/
structure ChannelEpg where
  id : List Char
  displayName : List Char
  iconPath : List Char
  entries : List (Int × EpgEntry)
deriving DecidableEq, Repr

/-- A `<channel>` element of the `<tv>` root: the `id` attribute, the first
`<display-name>` child's text, and the `<icon src>` attribute (each "" when
missing, as pugixml reports them). -/
structure XmlChannel where
  id : List Char
  displayName : List Char
  iconSrc : List Char
deriving DecidableEq, Repr

/-- A `<programme>` element of the `<tv>` root, with its attributes and the
text of its optional children ("" when missing). -/
structure XmlProgramme where
  channel : List Char
  start : List Char
  stop : List Char
  title : List Char
  desc : List Char
  subTitle : List Char
  iconSrc : List Char
  category : List Char
deriving DecidableEq, Repr

/-! ## Channel Matcher (xtream_client.cpp lines 919-981) -/

/-- Saturation of `strtol` at the 64-bit `long` bounds (`LONG_MAX` /
`LONG_MIN` on overflow). -/
def strtolClamp (v : Int) : Int :=
  if v > 9223372036854775807 then 9223372036854775807
  else if v < -9223372036854775808 then -9223372036854775808
  else v

/-- Digit phase of `strtol`: given the sign, the offset consumed so far and
the remaining characters, the parsed value (saturated to the 64-bit `long`
range) and the end-pointer offset. With no digits, `strtol` leaves the end
pointer at the original start: `(0, 0)`. -/
def strtolDigits (neg : Bool) (pre : Nat) (t : List Char) : Int × Nat :=
  if t.takeWhile Char.isDigit = [] then (0, 0)
  else
    (strtolClamp
      (if neg then -(natOfDigits (t.takeWhile Char.isDigit) : Int)
       else (natOfDigits (t.takeWhile Char.isDigit) : Int)),
     pre + (t.takeWhile Char.isDigit).length)

/-- C `strtol(s, &end, 10)` on an LP64 platform: skip whitespace, optional
sign, digits; result value and the index of the end pointer. -/
def strtolModel (s : List Char) : Int × Nat :=
  if (s.dropWhile csIsSpace).head? = some '-' then
    strtolDigits true ((s.takeWhile csIsSpace).length + 1) (s.dropWhile csIsSpace).tail
  else if (s.dropWhile csIsSpace).head? = some '+' then
    strtolDigits false ((s.takeWhile csIsSpace).length + 1) (s.dropWhile csIsSpace).tail
  else strtolDigits false (s.takeWhile csIsSpace).length (s.dropWhile csIsSpace)

/-- Digit-emitting loop of `std::to_string`, structured with explicit fuel
(any fuel bounding the digit count gives the digits of `n` before `acc`). -/
def natToCharsAux : Nat → Nat → List Char → List Char
  | 0, _, acc => acc
  | fuel + 1, n, acc =>
    if n < 10 then Char.ofNat (48 + n) :: acc
    else natToCharsAux fuel (n / 10) (Char.ofNat (48 + n % 10) :: acc)

/-- `std::to_string` on a nonnegative value: decimal digits,
most significant first. -/
def natToChars (n : Nat) : List Char :=
  natToCharsAux (n + 1) n []

/-- `std::to_string(int)`. -/
def intToChars (i : Int) : List Char :=
  if i < 0 then '-' :: natToChars (-i).toNat else natToChars i.toNat

/-- Membership of `streamIdToName` (xtream_client.cpp lines 920-929): the map
holds exactly the ids of catalog streams with `id > 0`. -/
def hasStreamId (streams : List LiveStream) (i : Int) : Bool :=
  streams.any fun s => decide (0 < s.id) && decide (s.id = i)

/-- Lookup in `streamNameToId` (xtream_client.cpp lines 920-929): keyed by the
lowercased stream name, later insertions overwriting earlier ones, so the
result is the id of the last `id > 0` stream with that lowercased name. -/
def lookupNameId (streams : List LiveStream) (lname : List Char) : Option Int :=
  streams.foldl
    (fun acc s =>
      if 0 < s.id then (if toLowerStr s.name = lname then some s.id else acc) else acc)
    none

/-- The join-key resolution of `ParseXMLTV` (xtream_client.cpp lines 957-978):
if `strtol` consumes the whole id attribute with a positive `long` result
whose `static_cast<int>` image is a catalog stream id, that id rendered as
text; otherwise a case-insensitive display-name lookup; otherwise the
XMLTV id verbatim. -/
def resolveJoinKey (streams : List LiveStream) (xmltvId displayName : List Char) :
    List Char :=
  if (strtolModel xmltvId).2 = xmltvId.length ∧ 0 < (strtolModel xmltvId).1 ∧
      hasStreamId streams (toInt32 (strtolModel xmltvId).1) = true then
    intToChars (toInt32 (strtolModel xmltvId).1)
  else if displayName = [] then xmltvId
  else
    match lookupNameId streams (toLowerStr displayName) with
    | some sid => intToChars sid
    | none => xmltvId

/-! ## XMLTV timestamp parsing (xtream_client.cpp lines 1003-1038) -/

/-- One `%Nd` conversion of `sscanf`: skip whitespace, then within a field
width of `w` characters an optional sign and at least one digit; the value
and the remaining input, or `none` on a matching failure. -/
def scanIntW (w : Nat) (s : List Char) : Option (Int × List Char) :=
  let s1 := s.dropWhile csIsSpace
  if s1.head? = some '-' then
    let ds := (s1.tail.take (w - 1)).takeWhile Char.isDigit
    if ds = [] then none else some (-(natOfDigits ds : Int), s1.tail.drop ds.length)
  else if s1.head? = some '+' then
    let ds := (s1.tail.take (w - 1)).takeWhile Char.isDigit
    if ds = [] then none else some ((natOfDigits ds : Int), s1.tail.drop ds.length)
  else
    let ds := (s1.take w).takeWhile Char.isDigit
    if ds = [] then none else some ((natOfDigits ds : Int), s1.drop ds.length)

/-- `sscanf(s, "%4d%2d%2d%2d%2d%2d", ...)`: the six scanned fields, or `none`
when fewer than six conversions succeed (the code only acts on a return
value of exactly 6). -/
def sscanfTm (s : List Char) : Option (Int × Int × Int × Int × Int × Int) :=
  match scanIntW 4 s with
  | none => none
  | some (y, s1) =>
    match scanIntW 2 s1 with
    | none => none
    | some (mo, s2) =>
      match scanIntW 2 s2 with
      | none => none
      | some (d, s3) =>
        match scanIntW 2 s3 with
        | none => none
        | some (h, s4) =>
          match scanIntW 2 s4 with
          | none => none
          | some (mi, s5) =>
            match scanIntW 2 s5 with
            | none => none
            | some (sec, _) => some (y, mo, d, h, mi, sec)

/-- Days from the civil date `(y, m, 1)` (with `m` in `1..12`) to 1970-01-01,
via the Julian day number; valid for every year with floor division. -/
def daysFromCivil (y m : Int) : Int :=
  let a := (14 - m).fdiv 12
  let y1 := y + 4800 - a
  let m1 := m + 12 * a - 3
  1 + (153 * m1 + 2).fdiv 5 + 365 * y1 + y1.fdiv 4 - y1.fdiv 100 + y1.fdiv 400 - 32045 -
    2440588

/-- `mktime` on the `tm` built by `ParseXMLTV` (fields `y-1900`, `mo-1`, ...),
modelled as the UTC civil-to-epoch conversion with libc's normalization of
out-of-range fields. -/
def mktimeModel (y mo d h mi s : Int) : Int :=
  let m0 := mo - 1
  let yAdj := y + m0.fdiv 12
  let mAdj := m0.emod 12 + 1
  (daysFromCivil yAdj mAdj + (d - 1)) * 86400 + h * 3600 + mi * 60 + s

/-- Timestamp-attribute handling of `ParseXMLTV` (xtream_client.cpp lines
1007-1034): the parsed time, or 0 (unset) when `sscanf` scans fewer than six
fields or the attribute is empty. -/
def parseXmlTime (s : List Char) : Int :=
  match sscanfTm s with
  | some (y, mo, d, h, mi, sec) => mktimeModel y mo d h mi sec
  | none => 0

/-! ## EPG Assembler (xtream_client.cpp lines 931-1085) -/

/-- `std::map::operator[]` assignment on the entries map: insert the pair at
its sorted position, replacing an existing entry with the same key. -/
def mapInsert (t : Int) (e : EpgEntry) : List (Int × EpgEntry) → List (Int × EpgEntry)
  | [] => [(t, e)]
  | (t', e') :: xs =>
    if t < t' then (t, e) :: (t', e') :: xs
    else if t = t' then (t, e) :: xs
    else (t', e') :: mapInsert t e xs

/-- Lookup in the entries map. -/
def entriesLookup : List (Int × EpgEntry) → Int → Option EpgEntry
  | [], _ => none
  | (t', e) :: xs, t => if t = t' then some e else entriesLookup xs t

/-- `epgMap.find(k)`: the channel record stored under join key `k` (the map
is embedded as a list of `ChannelEpg` keyed by the `id` field, which the code
always sets to the map key). -/
def amLookup : List ChannelEpg → List Char → Option ChannelEpg
  | [], _ => none
  | x :: xs, k => if x.id = k then some x else amLookup xs k

/-- `epgMap[key] = v`: replace the record with the same key, else append. -/
def amInsert : List ChannelEpg → ChannelEpg → List ChannelEpg
  | [], v => [v]
  | x :: xs, v => if x.id = v.id then v :: xs else x :: amInsert xs v

/-- The `ChannelEpg` built for one `<channel>` element in the first pass of
`ParseXMLTV` (xtream_client.cpp lines 940-981): resolved join key, display
name, icon, empty schedule. -/
def mkChanEpg (streams : List LiveStream) (c : XmlChannel) : ChannelEpg :=
  ⟨resolveJoinKey streams c.id c.displayName, c.displayName, c.iconSrc, []⟩

/-- One iteration of the channel pass: channels with an empty `id` attribute
are skipped, all others are stored under their resolved join key. -/
def processChannel (streams : List LiveStream) (m : List ChannelEpg)
    (c : XmlChannel) : List ChannelEpg :=
  if c.id = [] then m else amInsert m (mkChanEpg streams c)

/-- The channel pass of `ParseXMLTV` over the `<channel>` children. -/
def channelPass (streams : List LiveStream) (chans : List XmlChannel) :
    List ChannelEpg :=
  chans.foldl (processChannel streams) []

/-- The `EpgEntry` built for one `<programme>` element (xtream_client.cpp
lines 1000-1067). -/
def mkEntry (p : XmlProgramme) : EpgEntry :=
  ⟨p.channel, parseXmlTime p.start, parseXmlTime p.stop,
   p.title, p.desc, p.subTitle, p.iconSrc, p.category⟩

/-- One iteration of the programme pass (xtream_client.cpp lines 987-1072):
skip on an empty `channel` attribute, on a channel id absent from the join
map, or on invalid times; otherwise key the entry into that channel's
schedule by start time. -/
def processProgramme (m : List ChannelEpg) (p : XmlProgramme) : List ChannelEpg :=
  if p.channel = [] then m
  else
    match amLookup m p.channel with
    | none => m
    | some epg =>
      if parseXmlTime p.start = 0 ∨ parseXmlTime p.stop = 0 ∨
          parseXmlTime p.stop ≤ parseXmlTime p.start then m
      else
        amInsert m
          { epg with
              entries := mapInsert (parseXmlTime p.start) (mkEntry p) epg.entries }

/-- `ParseXMLTV` (xtream_client.cpp lines 887-1085) over an already-parsed
`<tv>` document: the channel pass, the programme pass, then the output pass
keeping only channels with a nonempty schedule. -/
def parseXMLTV (streams : List LiveStream) (chans : List XmlChannel)
    (progs : List XmlProgramme) : List ChannelEpg :=
  ((progs.foldl processProgramme (channelPass streams chans)).filter
    fun e => !e.entries.isEmpty)

/-- The last channel in document order with a nonempty `id` attribute whose
resolved join key is `k`; specification device characterizing the content of
the channel-pass map. -/
def lastResolved (streams : List LiveStream) :
    List XmlChannel → List Char → Option XmlChannel
  | [], _ => none
  | c :: cs, k =>
    match lastResolved streams cs k with
    | some r => some r
    | none =>
      if c.id ≠ [] ∧ resolveJoinKey streams c.id c.displayName = k then some c
      else none

/-! ## Shared lemmas -/

/-- An invariant preserved by every step of a fold holds of the result. -/
theorem foldl_inv {α β : Type} {P : β → Prop} (f : β → α → β)
    (h : ∀ b a, P b → P (f b a)) : ∀ (l : List α) (b : β), P b → P (l.foldl f b)
  | [], _, hb => hb
  | a :: l, b, hb => foldl_inv f h l (f b a) (h b a hb)

/-- The `any` flag of the xtream scanner state tracks span non-emptiness. -/
theorem xstep_any_iff (st : XSt) (i : Nat) (c : Char)
    (h : st.any = true ↔ st.spans ≠ []) :
    (xstep st i c).any = true ↔ (xstep st i c).spans ≠ [] := by
  unfold xstep
  split_ifs <;> try exact h
  all_goals cases hs : st.objStart
  all_goals simp_all

/-- `xscanAux` preserves the `any`-tracks-spans invariant. -/
theorem xscanAux_any_iff : ∀ (cs : List Char) (i : Nat) (st : XSt),
    (st.any = true ↔ st.spans ≠ []) →
    ((xscanAux i st cs).any = true ↔ (xscanAux i st cs).spans ≠ [])
  | [], _, _, h => h
  | c :: cs, i, st, h => xscanAux_any_iff cs (i + 1) (xstep st i c) (xstep_any_iff st i c h)

/-- A halted dispatcharr scanner state absorbs every further character. -/
theorem dstep_halted (st : DSt) (c : Char) (h : st.halted = true) : dstep st c = st := by
  simp [dstep, h]

/-- A halted dispatcharr scanner state absorbs every further input. -/
theorem dscan_halted : ∀ (cs : List Char) (st : DSt), st.halted = true → dscan st cs = st
  | [], _, _ => rfl
  | c :: cs, st, h => by
    show dscan (dstep st c) cs = st
    rw [dstep_halted st c h]
    exact dscan_halted cs st h

/-! ## Claim C2 -/

/-- C2 counterexample: on the well-formed empty array `[]` the xtream Array
Scanner returns exactly the same result `(false, no spans)` as on an input
that is not a JSON array at all, and `FetchLiveCategories` consequently
reports the malformed-input failure "Categories response was not a JSON
array" for `[]` instead of a distinct no-objects outcome. -/
theorem c2_counterexample :
    forEachTopLevelObjectSpan ("[]".toList) = (false, []) ∧
    forEachTopLevelObjectSpan ("notjson".toList) = (false, []) ∧
    fetchLiveCategoriesPure ("[]".toList) =
      (⟨false, "Categories response was not a JSON array"⟩, []) := by
  refine ⟨by decide, by decide, ?_⟩
  decide

/-- C2 (amended): the scanner's boolean result reports only whether at least
one object span was produced, so an empty array is indistinguishable from
malformed input; whenever the scanner reports `false`, the category fetch
reports the not-a-JSON-array parse failure with zero records. -/
theorem c2_thm :
    (∀ json : List Char,
      (forEachTopLevelObjectSpan json).1 = true ↔
        (forEachTopLevelObjectSpan json).2 ≠ []) ∧
    (∀ body : List Char, (forEachTopLevelObjectSpan body).1 = false →
      fetchLiveCategoriesPure body =
        (⟨false, "Categories response was not a JSON array"⟩, [])) := by
  constructor
  · intro json
    unfold forEachTopLevelObjectSpan
    split
    · exact xscanAux_any_iff _ _ _ (by simp)
    · simp
  · intro body h
    unfold fetchLiveCategoriesPure
    simp [h]

/-- C2 witness: the amended theorem applied to the empty array. -/
theorem c2_witness :
    (forEachTopLevelObjectSpan ("[]".toList)).1 = false ∧
    fetchLiveCategoriesPure ("[]".toList) =
      (⟨false, "Categories response was not a JSON array"⟩, []) :=
  ⟨by decide, c2_thm.2 ("[]".toList) (by decide)⟩

/-! ## Claim C5 -/

/-- C5 counterexample: the xtream `ForEachTopLevelObjectSpan` has no handling
of `]` at all, so on `[]{}` — whose complete top-level array ends at offset
1 — it still reports the span `(2, 4)` of the object written after the
array's closing `]` (and returns `true`). -/
theorem c5_counterexample :
    forEachTopLevelObjectSpan ("[]\x7b\x7d".toList) = (true, [(2, 4)]) ∧
    ("[]\x7b\x7d".toList).take 2 = "[]".toList := by
  constructor <;> decide

/-- C5 (amended): the dispatcharr `ForEachObjectInArray` does terminate at
the matching top-level `]` — once its scan has halted, appending any further
characters leaves the scan state (spans included) unchanged, and on the
counterexample input it reports no span for the object after the `]` — while
the xtream scanner scans to the end of the input. -/
theorem c5_thm :
    (∀ (st : DSt) (l1 l2 : List Char), (dscan st l1).halted = true →
      dscan st (l1 ++ l2) = dscan st l1) ∧
    forEachObjectInArray ("[]\x7b\x7d".toList) = (true, []) := by
  constructor
  · intro st l1 l2 h
    show List.foldl dstep st (l1 ++ l2) = dscan st l1
    rw [List.foldl_append]
    exact dscan_halted l2 (dscan st l1) h
  · decide

/-- C5 witness: after the complete array `[]` the dispatcharr scan is halted,
and the appended object `{}` leaves its result unchanged. -/
theorem c5_witness :
    (dscan ⟨0, false, false, 0, none, [], false⟩ ("[]".toList)).halted = true ∧
    dscan ⟨0, false, false, 0, none, [], false⟩ ("[]".toList ++ "\x7b\x7d".toList) =
      dscan ⟨0, false, false, 0, none, [], false⟩ ("[]".toList) :=
  ⟨by decide, c5_thm.1 _ _ _ (by decide)⟩

/-! ## Claim C6 -/

/-- C6: while the in-string flag is set, a scanner step never changes the
depth, the pending object start or the reported spans — braces inside string
literals are not object boundaries — and the array element
`{"name":"a{b}c"}` yields exactly the single span `(1, 17)` covering the
whole object. -/
theorem c6_thm :
    (∀ (st : XSt) (i : Nat) (c : Char), st.inString = true →
      (xstep st i c).depth = st.depth ∧ (xstep st i c).objStart = st.objStart ∧
        (xstep st i c).spans = st.spans ∧ (xstep st i c).any = st.any) ∧
    forEachTopLevelObjectSpan ("[\x7b\"name\":\"a\x7bb\x7dc\"\x7d]".toList) =
      (true, [(1, 17)]) := by
  constructor
  · intro st i c h
    unfold xstep
    rw [if_pos h]
    split_ifs <;> simp
  · decide

/-- C6 witness: the step property at a concrete in-string state receiving a
closing brace. -/
theorem c6_witness :
    (⟨true, false, 1, some 0, [], false⟩ : XSt).inString = true ∧
    ((xstep ⟨true, false, 1, some 0, [], false⟩ 7 '}').depth = (1 : Int) ∧
      (xstep ⟨true, false, 1, some 0, [], false⟩ 7 '}').objStart = some 0 ∧
      (xstep ⟨true, false, 1, some 0, [], false⟩ 7 '}').spans = [] ∧
      (xstep ⟨true, false, 1, some 0, [], false⟩ 7 '}').any = false) :=
  ⟨rfl, c6_thm.1 ⟨true, false, 1, some 0, [], false⟩ 7 '}' rfl⟩

/-! ## Claim C4 -/

/-- Raw depth of a list extended by one character. -/
theorem rawDepth_append_singleton (o cl : Char) (l : List Char) (c : Char) :
    rawDepth o cl (l ++ [c]) = rawDepth o cl l + braceDelta o cl c := by
  simp [rawDepth]

/-- The nonempty-prefixes-positive property carries over to an accumulator
extended by one character, provided the extended depth is still positive. -/
theorem rawDepth_take_extend (o cl : Char) (acc : List Char) (c : Char) (dNew : Int)
    (hdep : rawDepth o cl (acc ++ [c]) = dNew) (hpos : 1 ≤ dNew)
    (hpre : ∀ n, 0 < n → n ≤ acc.length → 1 ≤ rawDepth o cl (acc.take n)) :
    ∀ n, 0 < n → n ≤ (acc ++ [c]).length → 1 ≤ rawDepth o cl ((acc ++ [c]).take n) := by
  intro n hn hle
  rcases Nat.lt_or_ge n (acc.length + 1) with hlt | hge
  · rw [List.take_append_of_le_length (by omega)]
    exact hpre n hn (by omega)
  · have hn' : n = acc.length + 1 := by
      simp only [List.length_append, List.length_singleton] at hle
      omega
    have hfull : (acc ++ [c]).take n = acc ++ [c] := by
      rw [hn']
      have hL : acc.length + 1 = (acc ++ [c]).length := by simp
      rw [hL, List.take_length]
    rw [hfull, hdep]
    exact hpos

/-- A nonempty accumulator keeps its first element through an append. -/
theorem head_append_of_ne_nil {α : Type} (acc : List α) (l : List α) (hne : acc ≠ []) :
    (acc ++ l).head? = acc.head? := by
  cases acc with
  | nil => exact absurd rfl hne
  | cons a t => simp

/-- Specification of the raw-span loop: starting inside `d ≥ 1` open
delimiters with the accumulated prefix `acc` realizing that depth and all of
its nonempty prefixes at positive depth, a successful scan returns a span of
raw depth zero whose proper nonempty prefixes all have positive raw depth,
and whose first character is that of `acc`. -/
theorem rawSpanFrom_spec (o cl : Char) :
    ∀ (rest : List Char) (d : Int) (acc out : List Char),
      rawSpanFrom o cl d acc rest = some out → 1 ≤ d → acc ≠ [] →
      rawDepth o cl acc = d →
      (∀ n, 0 < n → n ≤ acc.length → 1 ≤ rawDepth o cl (acc.take n)) →
      rawDepth o cl out = 0 ∧
        (∀ n, 0 < n → n < out.length → 1 ≤ rawDepth o cl (out.take n)) ∧
        out.head? = acc.head?
  | [], d, acc, out, hout, _, _, _, _ => by simp [rawSpanFrom] at hout
  | c :: rest, d, acc, out, hout, hd, hne, hdep, hpre => by
    unfold rawSpanFrom at hout
    by_cases ho : c = o
    · rw [if_pos ho] at hout
      have hdep' : rawDepth o cl (acc ++ [c]) = d + 1 := by
        rw [rawDepth_append_singleton, hdep, ho]
        simp [braceDelta]
      have := rawSpanFrom_spec o cl rest (d + 1) (acc ++ [c]) out hout (by omega)
        (by simp) hdep'
        (rawDepth_take_extend o cl acc c (d + 1) hdep' (by omega) hpre)
      exact ⟨this.1, this.2.1, by rw [this.2.2, head_append_of_ne_nil acc [c] hne]⟩
    · rw [if_neg ho] at hout
      by_cases hc : c = cl
      · rw [if_pos hc] at hout
        by_cases hz : d - 1 = 0
        · rw [if_pos hz] at hout
          have hout' : out = acc ++ [c] := (Option.some_inj.mp hout).symm
          subst hout'
          refine ⟨?_, ?_, head_append_of_ne_nil acc [c] hne⟩
          · rw [rawDepth_append_singleton, hdep, hc]
            have hclo : ¬(cl = o) := fun hco => ho (by rw [hc, hco])
            have : braceDelta o cl cl = -1 := by simp [braceDelta, hclo]
            omega
          · intro n hn hlt
            have hle : n ≤ acc.length := by
              simp only [List.length_append, List.length_singleton] at hlt
              omega
            rw [List.take_append_of_le_length hle]
            exact hpre n hn hle
        · rw [if_neg hz] at hout
          have hdep' : rawDepth o cl (acc ++ [c]) = d - 1 := by
            rw [rawDepth_append_singleton, hdep, hc]
            have hclo : ¬(cl = o) := fun hco => ho (by rw [hc, hco])
            have : braceDelta o cl cl = -1 := by simp [braceDelta, hclo]
            omega
          have := rawSpanFrom_spec o cl rest (d - 1) (acc ++ [c]) out hout (by omega)
            (by simp) hdep'
            (rawDepth_take_extend o cl acc c (d - 1) hdep' (by omega) hpre)
          exact ⟨this.1, this.2.1, by rw [this.2.2, head_append_of_ne_nil acc [c] hne]⟩
      · rw [if_neg hc] at hout
        have hdep' : rawDepth o cl (acc ++ [c]) = d := by
          rw [rawDepth_append_singleton, hdep]
          simp [braceDelta, ho, hc]
        have := rawSpanFrom_spec o cl rest d (acc ++ [c]) out hout hd
          (by simp) hdep'
          (rawDepth_take_extend o cl acc c d hdep' (by omega) hpre)
        exact ⟨this.1, this.2.1, by rw [this.2.2, head_append_of_ne_nil acc [c] hne]⟩

/-- C4 counterexample: on the object `{"k":{"a":"}"}}`, whose value for key
`k` is the balanced span `{"a":"}"}` containing a closing brace inside a
string literal, `ExtractRawJsonField` returns the shorter span `{"a":"}` —
the brace inside the string terminated the depth count, so the helper does
not skip delimiters inside string literals the way the Array Scanner
does. -/
theorem c4_counterexample :
    extractRawJsonField ("\x7b\"k\":\x7b\"a\":\"\x7d\"\x7d\x7d".toList) ("k".toList) =
      some ("\x7b\"a\":\"\x7d".toList) ∧
    some ("\x7b\"a\":\"\x7d".toList) ≠ some ("\x7b\"a\":\"\x7d\"\x7d".toList) := by
  constructor <;> decide

/-- C4 (amended): a span returned by the raw-nested-span helper starts at the
opening `{` or `[` of the value and ends exactly where the count of open
minus close delimiter characters — counted over all characters, with no
in-string tracking, unlike the Array Scanner — first returns to zero: the
span has raw depth zero and every proper nonempty prefix of it has positive
raw depth. Delimiters inside string literals therefore do affect the
returned span. -/
theorem c4_thm (obj key out : List Char)
    (h : extractRawJsonField obj key = some out) :
    ∃ o cl, ((o = '{' ∧ cl = '}') ∨ (o = '[' ∧ cl = ']')) ∧
      out.head? = some o ∧ rawDepth o cl out = 0 ∧
      ∀ n, 0 < n → n < out.length → 1 ≤ rawDepth o cl (out.take n) := by
  unfold extractRawJsonField at h
  split at h
  · exact absurd h (by simp)
  · split at h
    · exact absurd h (by simp)
    · split at h
      · next heq =>
        refine ⟨'{', '}', Or.inl ⟨rfl, rfl⟩, ?_⟩
        have := rawSpanFrom_spec '{' '}' _ 1 ['{'] out h (by omega) (by simp)
          (by simp [rawDepth, braceDelta]) ?_
        · exact ⟨by simpa using this.2.2, this.1, this.2.1⟩
        · intro n hn hle
          have : n = 1 := by simpa using Nat.le_antisymm (by simpa using hle) hn
          subst this
          simp [rawDepth, braceDelta]
      · next heq =>
        refine ⟨'[', ']', Or.inr ⟨rfl, rfl⟩, ?_⟩
        have := rawSpanFrom_spec '[' ']' _ 1 ['['] out h (by omega) (by simp)
          (by simp [rawDepth, braceDelta]) ?_
        · exact ⟨by simpa using this.2.2, this.1, this.2.1⟩
        · intro n hn hle
          have : n = 1 := by simpa using Nat.le_antisymm (by simpa using hle) hn
          subst this
          simp [rawDepth, braceDelta]
      · exact absurd h (by simp)

/-- C4 witness: the characterization applied to a nested object value with
no delimiters inside strings, where the helper does return the outermost
balanced span. -/
theorem c4_witness :
    extractRawJsonField ("\x7b\"k\":\x7b\"a\":\x7b\"b\":1\x7d\x7d\x7d".toList)
      ("k".toList) = some ("\x7b\"a\":\x7b\"b\":1\x7d\x7d".toList) ∧
    ∃ o cl, ((o = '{' ∧ cl = '}') ∨ (o = '[' ∧ cl = ']')) ∧
      ("\x7b\"a\":\x7b\"b\":1\x7d\x7d".toList).head? = some o ∧
      rawDepth o cl ("\x7b\"a\":\x7b\"b\":1\x7d\x7d".toList) = 0 ∧
      ∀ n, 0 < n → n < ("\x7b\"a\":\x7b\"b\":1\x7d\x7d".toList).length →
        1 ≤ rawDepth o cl (("\x7b\"a\":\x7b\"b\":1\x7d\x7d".toList).take n) :=
  ⟨by decide,
   c4_thm ("\x7b\"k\":\x7b\"a\":\x7b\"b\":1\x7d\x7d\x7d".toList) ("k".toList)
     ("\x7b\"a\":\x7b\"b\":1\x7d\x7d".toList) (by decide)⟩

/-! ## Claim C7 -/

/-- C7: `ExtractStringField` decodes `\u00e9` to the two UTF-8 bytes
`C3 A9` of é, the surrogate pair `\uD83D\uDE00` to the four UTF-8 bytes
`F0 9F 98 80` of U+1F600 (via `0x10000 + (hi<<10 | lo)`), and a lone
`\uD800` with no valid low surrogate to the UTF-8 bytes `EF BF BD` of
U+FFFD. -/
theorem c7_thm :
    extractStringField ("\x7b\"name\":\"\\u00e9\"\x7d".toList) ("name".toList) =
      some [Char.ofNat 0xC3, Char.ofNat 0xA9] ∧
    extractStringField ("\x7b\"name\":\"\\uD83D\\uDE00\"\x7d".toList) ("name".toList) =
      some [Char.ofNat 0xF0, Char.ofNat 0x9F, Char.ofNat 0x98, Char.ofNat 0x80] ∧
    extractStringField ("\x7b\"name\":\"\\uD800\"\x7d".toList) ("name".toList) =
      some [Char.ofNat 0xEF, Char.ofNat 0xBF, Char.ofNat 0xBD] := by
  refine ⟨by decide, by decide, by decide⟩

/-! ## Claim C1 -/

/-- C1 counterexample: the channel `<channel id="bbc1">` with display name
"BBC One" is recorded in pass 1, but under the join key "5" resolved through
the stream catalog's name match; the programme referencing channel "bbc1"
with valid times is nevertheless skipped (the output is empty), because the
programme pass looks its channel attribute up among resolved join keys, not
among the ids seen in pass 1. -/
theorem c1_counterexample :
    resolveJoinKey [⟨5, 0, 0, "BBC One".toList, []⟩] ("bbc1".toList)
      ("BBC One".toList) = "5".toList ∧
    parseXmlTime ("20260121120000 +0000".toList) = 1768996800 ∧
    parseXmlTime ("20260121130000 +0000".toList) = 1769000400 ∧
    parseXMLTV [⟨5, 0, 0, "BBC One".toList, []⟩]
      [⟨"bbc1".toList, "BBC One".toList, []⟩]
      [⟨"bbc1".toList, "20260121120000 +0000".toList,
        "20260121130000 +0000".toList, "News".toList, [], [], [], []⟩] = [] := by
  refine ⟨by decide, by decide, by decide, by decide⟩

/-- C1 (amended): a programme with a nonempty channel attribute and valid
times is added to the schedule of the map record stored under that attribute
— the lookup is by resolved join key — and it is skipped exactly when no
record under that key exists, even if a pass-1 channel carried that id
attribute before being remapped to a stream-derived key. -/
theorem c1_thm (m : List ChannelEpg) (p : XmlProgramme) :
    (amLookup m p.channel = none → processProgramme m p = m) ∧
    (∀ epg, p.channel ≠ [] → amLookup m p.channel = some epg →
      parseXmlTime p.start ≠ 0 → parseXmlTime p.stop ≠ 0 →
      parseXmlTime p.start < parseXmlTime p.stop →
      processProgramme m p =
        amInsert m
          { epg with entries := mapInsert (parseXmlTime p.start) (mkEntry p) epg.entries }) := by
  constructor
  · intro h
    unfold processProgramme
    by_cases hch : p.channel = []
    · rw [if_pos hch]
    · rw [if_neg hch, h]
  · intro epg hch hsome h1 h2 h3
    have hcond : ¬(parseXmlTime p.start = 0 ∨ parseXmlTime p.stop = 0 ∨
        parseXmlTime p.stop ≤ parseXmlTime p.start) := by
      push_neg
      exact ⟨h1, h2, by omega⟩
    simp only [processProgramme, hsome, if_neg hch, if_neg hcond]

/-- C1 witness: the amended theorem applied to a concrete one-channel map
and a valid programme. -/
theorem c1_witness :
    ("10".toList : List Char) ≠ [] ∧
    amLookup [⟨"10".toList, [], [], []⟩] ("10".toList) =
      some ⟨"10".toList, [], [], []⟩ ∧
    parseXmlTime ("20260121120000 +0000".toList) ≠ 0 ∧
    parseXmlTime ("20260121130000 +0000".toList) ≠ 0 ∧
    parseXmlTime ("20260121120000 +0000".toList) <
      parseXmlTime ("20260121130000 +0000".toList) ∧
    processProgramme [⟨"10".toList, [], [], []⟩]
      ⟨"10".toList, "20260121120000 +0000".toList, "20260121130000 +0000".toList,
        "News".toList, [], [], [], []⟩ =
      amInsert [⟨"10".toList, [], [], []⟩]
        { (⟨"10".toList, [], [], []⟩ : ChannelEpg) with
            entries := mapInsert
              (parseXmlTime ("20260121120000 +0000".toList))
              (mkEntry ⟨"10".toList, "20260121120000 +0000".toList,
                "20260121130000 +0000".toList, "News".toList, [], [], [], []⟩) [] } :=
  ⟨by decide, by decide, by decide, by decide, by decide,
   (c1_thm [⟨"10".toList, [], [], []⟩]
      ⟨"10".toList, "20260121120000 +0000".toList, "20260121130000 +0000".toList,
        "News".toList, [], [], [], []⟩).2
      ⟨"10".toList, [], [], []⟩ (by decide) (by decide) (by decide) (by decide) (by decide)⟩

/-! ## Claim C9 -/

/-- Unfolding step of `entriesLookup` on a nonempty map. -/
theorem entriesLookup_cons (t' : Int) (e' : EpgEntry) (xs : List (Int × EpgEntry))
    (t : Int) :
    entriesLookup ((t', e') :: xs) t = if t = t' then some e' else entriesLookup xs t :=
  rfl

/-- Inserting at an existing start time replaces that entry. -/
theorem entriesLookup_mapInsert_self :
    ∀ (es : List (Int × EpgEntry)) (t : Int) (e : EpgEntry),
      entriesLookup (mapInsert t e es) t = some e
  | [], t, e => by simp [mapInsert, entriesLookup]
  | (t', e') :: xs, t, e => by
    unfold mapInsert
    by_cases h1 : t < t'
    · rw [if_pos h1, entriesLookup_cons, if_pos rfl]
    · rw [if_neg h1]
      by_cases h2 : t = t'
      · rw [if_pos h2, entriesLookup_cons, if_pos rfl]
      · rw [if_neg h2, entriesLookup_cons, if_neg h2]
        exact entriesLookup_mapInsert_self xs t e

/-- Inserting at one start time leaves every other start time's entry
unchanged. -/
theorem entriesLookup_mapInsert_ne :
    ∀ (es : List (Int × EpgEntry)) (t : Int) (e : EpgEntry) (u : Int), u ≠ t →
      entriesLookup (mapInsert t e es) u = entriesLookup es u
  | [], t, e, u, hu => by
    show (if u = t then some e else none) = none
    rw [if_neg hu]
  | (t', e') :: xs, t, e, u, hu => by
    unfold mapInsert
    by_cases h1 : t < t'
    · rw [if_pos h1, entriesLookup_cons, if_neg hu]
    · rw [if_neg h1]
      by_cases h2 : t = t'
      · rw [if_pos h2, entriesLookup_cons, if_neg hu, entriesLookup_cons,
          if_neg (h2 ▸ hu)]
      · rw [if_neg h2, entriesLookup_cons, entriesLookup_cons]
        by_cases h3 : u = t'
        · rw [if_pos h3, if_pos h3]
        · rw [if_neg h3, if_neg h3]
          exact entriesLookup_mapInsert_ne xs t e u hu

/-- C9: within one `ParseXMLTV` call the schedule map is keyed by start
time with last-write-wins semantics — inserting an entry stores it under its
start time, replacing an existing entry with the same start time and leaving
every other start time untouched — and on a concrete document two
programmes sharing a start time collapse to the later one in document order
while a distinct start time is retained alongside. -/
theorem c9_thm :
    (∀ (es : List (Int × EpgEntry)) (t : Int) (e : EpgEntry),
      entriesLookup (mapInsert t e es) t = some e) ∧
    (∀ (es : List (Int × EpgEntry)) (t : Int) (e : EpgEntry) (u : Int), u ≠ t →
      entriesLookup (mapInsert t e es) u = entriesLookup es u) ∧
    parseXMLTV [] [⟨"10".toList, [], []⟩]
      [⟨"10".toList, "20260121120000 +0000".toList, "20260121130000 +0000".toList,
        "A".toList, [], [], [], []⟩,
       ⟨"10".toList, "20260121120000 +0000".toList, "20260121130000 +0000".toList,
        "B".toList, [], [], [], []⟩,
       ⟨"10".toList, "20260121130000 +0000".toList, "20260121140000 +0000".toList,
        "C".toList, [], [], [], []⟩] =
      [⟨"10".toList, [], [],
        [(1768996800,
          ⟨"10".toList, 1768996800, 1769000400, "B".toList, [], [], [], []⟩),
         (1769000400,
          ⟨"10".toList, 1769000400, 1769004000, "C".toList, [], [], [], []⟩)]⟩] := by
  refine ⟨entriesLookup_mapInsert_self, entriesLookup_mapInsert_ne, by decide⟩

/-- C9 witness: replacement at an occupied start time together with
preservation of a different start time, on a concrete schedule. -/
theorem c9_witness :
    (1769000400 : Int) ≠ 1768996800 ∧
    entriesLookup
      (mapInsert 1768996800 ⟨"10".toList, 1768996800, 1769000400, "B".toList, [], [], [], []⟩
        [(1768996800, ⟨"10".toList, 1768996800, 1769000400, "A".toList, [], [], [], []⟩),
         (1769000400, ⟨"10".toList, 1769000400, 1769004000, "C".toList, [], [], [], []⟩)])
      1768996800 =
      some ⟨"10".toList, 1768996800, 1769000400, "B".toList, [], [], [], []⟩ ∧
    entriesLookup
      (mapInsert 1768996800 ⟨"10".toList, 1768996800, 1769000400, "B".toList, [], [], [], []⟩
        [(1768996800, ⟨"10".toList, 1768996800, 1769000400, "A".toList, [], [], [], []⟩),
         (1769000400, ⟨"10".toList, 1769000400, 1769004000, "C".toList, [], [], [], []⟩)])
      1769000400 =
      entriesLookup
        [(1768996800, ⟨"10".toList, 1768996800, 1769000400, "A".toList, [], [], [], []⟩),
         (1769000400, ⟨"10".toList, 1769000400, 1769004000, "C".toList, [], [], [], []⟩)]
        1769000400 :=
  ⟨by decide,
   c9_thm.1 _ 1768996800 ⟨"10".toList, 1768996800, 1769000400, "B".toList, [], [], [], []⟩,
   c9_thm.2.1 _ 1768996800
     ⟨"10".toList, 1768996800, 1769000400, "B".toList, [], [], [], []⟩ 1769000400 (by decide)⟩

/-! ## Claim C3 -/

/-- Everything in an entries map after an insert is the inserted pair or was
already present. -/
theorem mem_mapInsert :
    ∀ (es : List (Int × EpgEntry)) (t : Int) (e : EpgEntry) (te : Int × EpgEntry),
      te ∈ mapInsert t e es → te = (t, e) ∨ te ∈ es
  | [], t, e, te, h => by
    simp [mapInsert] at h
    exact Or.inl h
  | (t', e') :: xs, t, e, te, h => by
    unfold mapInsert at h
    by_cases h1 : t < t'
    · rw [if_pos h1] at h
      simpa using h
    · rw [if_neg h1] at h
      by_cases h2 : t = t'
      · rw [if_pos h2] at h
        rcases List.mem_cons.mp h with h | h
        · exact Or.inl h
        · exact Or.inr (List.mem_cons_of_mem _ h)
      · rw [if_neg h2] at h
        rcases List.mem_cons.mp h with h | h
        · exact Or.inr (h ▸ List.mem_cons_self _ _)
        · rcases mem_mapInsert xs t e te h with h | h
          · exact Or.inl h
          · exact Or.inr (List.mem_cons_of_mem _ h)

/-- Everything in the channel map after an insert is the inserted record or
was already present. -/
theorem mem_amInsert :
    ∀ (m : List ChannelEpg) (v x : ChannelEpg), x ∈ amInsert m v → x = v ∨ x ∈ m
  | [], v, x, h => by
    simp [amInsert] at h
    exact Or.inl h
  | y :: ys, v, x, h => by
    unfold amInsert at h
    by_cases h1 : y.id = v.id
    · rw [if_pos h1] at h
      rcases List.mem_cons.mp h with h | h
      · exact Or.inl h
      · exact Or.inr (List.mem_cons_of_mem _ h)
    · rw [if_neg h1] at h
      rcases List.mem_cons.mp h with h | h
      · exact Or.inr (h ▸ List.mem_cons_self _ _)
      · rcases mem_amInsert ys v x h with h | h
        · exact Or.inl h
        · exact Or.inr (List.mem_cons_of_mem _ h)

/-- A successful channel-map lookup returns a member of the map. -/
theorem amLookup_mem :
    ∀ (m : List ChannelEpg) (k : List Char) (epg : ChannelEpg),
      amLookup m k = some epg → epg ∈ m
  | [], k, epg, h => by simp [amLookup] at h
  | x :: xs, k, epg, h => by
    unfold amLookup at h
    by_cases h1 : x.id = k
    · rw [if_pos h1] at h
      exact (Option.some_inj.mp h) ▸ List.mem_cons_self _ _
    · rw [if_neg h1] at h
      exact List.mem_cons_of_mem _ (amLookup_mem xs k epg h)

/-- Unfolding of a programme-pass step when no record exists under the
programme's channel attribute. -/
theorem processProgramme_eq_none (m : List ChannelEpg) (p : XmlProgramme)
    (h : amLookup m p.channel = none) : processProgramme m p = m := by
  unfold processProgramme
  by_cases hch : p.channel = []
  · rw [if_pos hch]
  · rw [if_neg hch, h]

/-- Unfolding of a programme-pass step when a record exists under the
programme's channel attribute. -/
theorem processProgramme_eq_some (m : List ChannelEpg) (p : XmlProgramme)
    (epg : ChannelEpg) (hch : p.channel ≠ [])
    (h : amLookup m p.channel = some epg) :
    processProgramme m p =
      if parseXmlTime p.start = 0 ∨ parseXmlTime p.stop = 0 ∨
          parseXmlTime p.stop ≤ parseXmlTime p.start then m
      else
        amInsert m
          { epg with
              entries := mapInsert (parseXmlTime p.start) (mkEntry p) epg.entries } := by
  unfold processProgramme
  rw [if_neg hch, h]

/-- Case analysis on one programme-pass step: either the map is unchanged, or
a record under the programme's channel attribute exists, the times are
valid, and its schedule gains the entry keyed by start time. -/
theorem processProgramme_cases (m : List ChannelEpg) (p : XmlProgramme) :
    processProgramme m p = m ∨
    ∃ epg, amLookup m p.channel = some epg ∧
      ¬(parseXmlTime p.start = 0 ∨ parseXmlTime p.stop = 0 ∨
        parseXmlTime p.stop ≤ parseXmlTime p.start) ∧
      processProgramme m p =
        amInsert m
          { epg with
              entries := mapInsert (parseXmlTime p.start) (mkEntry p) epg.entries } := by
  by_cases hch : p.channel = []
  · left
    unfold processProgramme
    rw [if_pos hch]
  · cases hlk : amLookup m p.channel with
    | none => exact Or.inl (processProgramme_eq_none m p hlk)
    | some epg =>
      by_cases hg : parseXmlTime p.start = 0 ∨ parseXmlTime p.stop = 0 ∨
          parseXmlTime p.stop ≤ parseXmlTime p.start
      · left
        rw [processProgramme_eq_some m p epg hch hlk, if_pos hg]
      · right
        exact ⟨epg, rfl, hg, by rw [processProgramme_eq_some m p epg hch hlk, if_neg hg]⟩

/-- The programme pass only ever adds entries with nonzero times and
`endTime > startTime`. -/
theorem processProgramme_valid (m : List ChannelEpg) (p : XmlProgramme)
    (hm : ∀ epg ∈ m, ∀ te ∈ epg.entries,
      te.2.startTime ≠ 0 ∧ te.2.endTime ≠ 0 ∧ te.2.startTime < te.2.endTime) :
    ∀ epg ∈ processProgramme m p, ∀ te ∈ epg.entries,
      te.2.startTime ≠ 0 ∧ te.2.endTime ≠ 0 ∧ te.2.startTime < te.2.endTime := by
  rcases processProgramme_cases m p with h | ⟨epg0, hlk, hg, h⟩
  · rw [h]
    exact hm
  · rw [h]
    intro epg hmem te hte
    rcases mem_amInsert _ _ _ hmem with he | he
    · subst he
      rcases mem_mapInsert _ _ _ _ hte with ht | ht
      · subst ht
        push_neg at hg
        simp only [mkEntry]
        exact ⟨hg.1, hg.2.1, hg.2.2⟩
      · exact hm epg0 (amLookup_mem m p.channel epg0 hlk) te ht
    · exact hm epg he te hte

/-- Every record in the channel-pass map has an empty schedule. -/
theorem channelPass_entries_empty (streams : List LiveStream)
    (chans : List XmlChannel) :
    ∀ epg ∈ channelPass streams chans, epg.entries = [] := by
  refine @foldl_inv _ _ (fun m => ∀ epg ∈ m, epg.entries = [])
    (processChannel streams) (fun m c hm => ?_) chans []
    (fun epg h => absurd h (List.not_mem_nil epg))
  unfold processChannel
  by_cases hid : c.id = []
  · rw [if_pos hid]
    exact hm
  · rw [if_neg hid]
    intro epg hmem
    rcases mem_amInsert _ _ _ hmem with he | he
    · rw [he]
      rfl
    · exact hm epg he

/-- C3 counterexample: the 13-digit attribute values `1960010100000` and
`1960010101000` — a wrong digit count for `YYYYMMDDHHMMSS` — are scanned
successfully by `sscanf` (`%2d` accepts a single digit), so the programme is
not dropped: it is retained with `startTime = -315619200 < 0` (1960-01-01),
contradicting both the claimed dropping of wrong-digit-count values and the
claimed `startTime > 0` for retained entries. -/
theorem c3_counterexample :
    sscanfTm ("1960010100000".toList) = some (1960, 1, 1, 0, 0, 0) ∧
    ("1960010100000".toList).length = 13 ∧
    parseXMLTV [] [⟨"c1".toList, [], []⟩]
      [⟨"c1".toList, "1960010100000".toList, "1960010101000".toList,
        "News".toList, [], [], [], []⟩] =
      [⟨"c1".toList, [], [],
        [(-315619200,
          ⟨"c1".toList, -315619200, -315615600, "News".toList, [], [], [], []⟩)]⟩] := by
  refine ⟨by decide, by decide, by decide⟩

/-- C3 (amended): the timestamp scan reads six integer fields of widths
4,2,2,2,2,2 — at most the first 14 digits, with any timezone suffix (or
further characters) ignored — but a value with fewer digits can still scan
when each later field finds at least one digit; the time stays unset (0) and
the entry is dropped exactly when fewer than six fields scan; and every
retained entry satisfies `endTime > startTime` with both times nonzero
(`startTime` can be negative for pre-1970 dates). -/
theorem c3_thm :
    (∀ (streams : List LiveStream) (chans : List XmlChannel)
        (progs : List XmlProgramme),
      ∀ epg ∈ parseXMLTV streams chans progs, ∀ te ∈ epg.entries,
        te.2.startTime ≠ 0 ∧ te.2.endTime ≠ 0 ∧ te.2.startTime < te.2.endTime) ∧
    (∀ (m : List ChannelEpg) (p : XmlProgramme), sscanfTm p.start = none →
      processProgramme m p = m) ∧
    sscanfTm ("20260121120000 +0000".toList) = some (2026, 1, 21, 12, 0, 0) ∧
    sscanfTm ("202601211200007777".toList) = some (2026, 1, 21, 12, 0, 0) ∧
    sscanfTm ("20260121120".toList) = none := by
  refine ⟨?_, ?_, by decide, by decide, by decide⟩
  · intro streams chans progs epg hepg te hte
    have hfold : ∀ epg ∈ (progs.foldl processProgramme (channelPass streams chans)),
        ∀ te ∈ epg.entries,
        te.2.startTime ≠ 0 ∧ te.2.endTime ≠ 0 ∧ te.2.startTime < te.2.endTime := by
      refine foldl_inv processProgramme (fun m p hm => processProgramme_valid m p hm)
        progs (channelPass streams chans) ?_
      intro epg0 h0 te0 ht0
      rw [channelPass_entries_empty streams chans epg0 h0] at ht0
      simp at ht0
    exact hfold epg (List.mem_of_mem_filter hepg) te hte
  · intro m p h
    by_cases hch : p.channel = []
    · unfold processProgramme
      rw [if_pos hch]
    · cases hlk : amLookup m p.channel with
      | none => exact processProgramme_eq_none m p hlk
      | some epg =>
        rw [processProgramme_eq_some m p epg hch hlk,
          if_pos (Or.inl (by simp [parseXmlTime, h]))]

/-- C3 witness: the invariant instantiated on the concrete parse retaining
one entry. -/
theorem c3_witness :
    (⟨"10".toList, [], [],
      [(1768996800,
        ⟨"10".toList, 1768996800, 1769000400, "News".toList, [], [], [], []⟩)]⟩ : ChannelEpg) ∈
      parseXMLTV [] [⟨"10".toList, [], []⟩]
        [⟨"10".toList, "20260121120000 +0000".toList, "20260121130000 +0000".toList,
          "News".toList, [], [], [], []⟩] ∧
    ((1768996800 : Int),
      (⟨"10".toList, 1768996800, 1769000400, "News".toList, [], [], [], []⟩ : EpgEntry)) ∈
      ([(1768996800,
        ⟨"10".toList, 1768996800, 1769000400, "News".toList, [], [], [], []⟩)] :
          List (Int × EpgEntry)) ∧
    ((1769000400 : Int) ≠ 0 ∧ (1768996800 : Int) ≠ 0 ∧ (1768996800 : Int) < 1769000400) :=
  ⟨by decide, by decide, by
    have := c3_thm.1 [] [⟨"10".toList, [], []⟩]
      [⟨"10".toList, "20260121120000 +0000".toList, "20260121130000 +0000".toList,
        "News".toList, [], [], [], []⟩]
      ⟨"10".toList, [], [],
        [(1768996800,
          ⟨"10".toList, 1768996800, 1769000400, "News".toList, [], [], [], []⟩)]⟩
      (by decide)
      (1768996800, ⟨"10".toList, 1768996800, 1769000400, "News".toList, [], [], [], []⟩)
      (by decide)
    exact ⟨this.2.1, this.1, this.2.2⟩⟩

/-! ## Claim C10 -/

/-- Unfolding step of `amLookup` on a nonempty map. -/
theorem amLookup_cons (x : ChannelEpg) (xs : List ChannelEpg) (k : List Char) :
    amLookup (x :: xs) k = if x.id = k then some x else amLookup xs k :=
  rfl

/-- `operator[]` assignment semantics of the channel map: a later lookup
sees the new record under its key and is unaffected elsewhere. -/
theorem amLookup_amInsert :
    ∀ (m : List ChannelEpg) (v : ChannelEpg) (k : List Char),
      amLookup (amInsert m v) k = if v.id = k then some v else amLookup m k
  | [], v, k => rfl
  | x :: xs, v, k => by
    unfold amInsert
    by_cases h1 : x.id = v.id
    · rw [if_pos h1, amLookup_cons, amLookup_cons]
      by_cases h2 : v.id = k
      · rw [if_pos h2, if_pos h2]
      · rw [if_neg h2, if_neg h2, if_neg (fun hxk => h2 (h1.symm.trans hxk))]
    · rw [if_neg h1, amLookup_cons, amLookup_cons]
      by_cases h3 : x.id = k
      · rw [if_pos h3, if_neg (fun hvk => h1 (h3.trans hvk.symm)), if_pos h3]
      · rw [if_neg h3, if_neg h3, amLookup_amInsert xs v k]

/-- Keys present after a channel-map insert were present before, or are the
inserted record's key. -/
theorem mem_ids_amInsert :
    ∀ (m : List ChannelEpg) (v : ChannelEpg) (y : List Char),
      y ∈ (amInsert m v).map (fun e => e.id) →
        y = v.id ∨ y ∈ m.map (fun e => e.id)
  | [], v, y, h => by
    simp [amInsert] at h
    exact Or.inl h
  | x :: xs, v, y, h => by
    unfold amInsert at h
    by_cases h1 : x.id = v.id
    · rw [if_pos h1] at h
      rcases List.mem_cons.mp h with h | h
      · exact Or.inl h
      · exact Or.inr (by simpa using Or.inr (by simpa using h))
    · rw [if_neg h1] at h
      rcases List.mem_cons.mp h with h | h
      · exact Or.inr (by simp [h])
      · rcases mem_ids_amInsert xs v y h with h | h
        · exact Or.inl h
        · exact Or.inr (by simpa using Or.inr (by simpa using h))

/-- Inserting into the channel map preserves distinctness of its keys. -/
theorem nodup_ids_amInsert :
    ∀ (m : List ChannelEpg) (v : ChannelEpg),
      (m.map (fun e => e.id)).Nodup → ((amInsert m v).map (fun e => e.id)).Nodup
  | [], v, _ => by simp [amInsert]
  | x :: xs, v, hnd => by
    unfold amInsert
    simp only [List.map_cons, List.nodup_cons] at hnd
    by_cases h1 : x.id = v.id
    · rw [if_pos h1]
      simp only [List.map_cons, List.nodup_cons]
      exact ⟨h1 ▸ hnd.1, hnd.2⟩
    · rw [if_neg h1]
      simp only [List.map_cons, List.nodup_cons]
      refine ⟨fun hmem => ?_, nodup_ids_amInsert xs v hnd.2⟩
      rcases mem_ids_amInsert xs v x.id hmem with h | h
      · exact h1 h
      · exact hnd.1 (by simpa using h)

/-- Unfolding step of `lastResolved` on a nonempty channel list. -/
theorem lastResolved_cons (streams : List LiveStream) (c : XmlChannel)
    (cs : List XmlChannel) (k : List Char) :
    lastResolved streams (c :: cs) k =
      match lastResolved streams cs k with
      | some r => some r
      | none =>
        if c.id ≠ [] ∧ resolveJoinKey streams c.id c.displayName = k then some c
        else none :=
  rfl

/-- The channel pass from any starting map: a key resolves to the record of
the last matching channel, falling back to the starting map. -/
theorem channelPass_lookup_aux (streams : List LiveStream) :
    ∀ (chans : List XmlChannel) (m : List ChannelEpg) (k : List Char),
      amLookup (List.foldl (processChannel streams) m chans) k =
        match lastResolved streams chans k with
        | some c => some (mkChanEpg streams c)
        | none => amLookup m k
  | [], m, k => rfl
  | c :: cs, m, k => by
    show amLookup (List.foldl (processChannel streams)
      (processChannel streams m c) cs) k = _
    rw [channelPass_lookup_aux streams cs (processChannel streams m c) k,
      lastResolved_cons]
    cases hl : lastResolved streams cs k with
    | some r => rfl
    | none =>
      show amLookup (processChannel streams m c) k = _
      unfold processChannel
      by_cases hid : c.id = []
      · rw [if_pos hid, if_neg (show ¬(c.id ≠ [] ∧
          resolveJoinKey streams c.id c.displayName = k) from by simp [hid])]
      · rw [if_neg hid, amLookup_amInsert]
        by_cases hk : resolveJoinKey streams c.id c.displayName = k
        · rw [if_pos (show (mkChanEpg streams c).id = k from hk),
            if_pos ⟨hid, hk⟩]
        · rw [if_neg (show ¬(mkChanEpg streams c).id = k from hk),
            if_neg (show ¬(c.id ≠ [] ∧
              resolveJoinKey streams c.id c.displayName = k) from
              fun hc => hk hc.2)]

/-- C10: the channel-pass map holds at most one record per resolved join
key: its keys are pairwise distinct, a lookup returns exactly the record
built from the last channel in document order (with nonempty id) resolving
to that key — so earlier channels with the same key are replaced, before the
programme pass runs, by the later channel's display name and icon — and the
final `ParseXMLTV` output likewise contains at most one `ChannelEpg` per
id. -/
theorem c10_thm (streams : List LiveStream) (chans : List XmlChannel)
    (progs : List XmlProgramme) :
    ((channelPass streams chans).map (fun e => e.id)).Nodup ∧
    (∀ k, amLookup (channelPass streams chans) k =
      (lastResolved streams chans k).map (mkChanEpg streams)) ∧
    ((parseXMLTV streams chans progs).map (fun e => e.id)).Nodup := by
  have hpass : ((channelPass streams chans).map (fun e => e.id)).Nodup := by
    refine @foldl_inv _ _ (fun m => (m.map (fun e => e.id)).Nodup)
      (processChannel streams) (fun m c hm => ?_) chans [] (by simp)
    unfold processChannel
    by_cases hid : c.id = []
    · rw [if_pos hid]
      exact hm
    · rw [if_neg hid]
      exact nodup_ids_amInsert m _ hm
  refine ⟨hpass, ?_, ?_⟩
  · intro k
    have := channelPass_lookup_aux streams chans [] k
    rw [show List.foldl (processChannel streams) [] chans = channelPass streams chans
      from rfl] at this
    rw [this]
    cases lastResolved streams chans k <;> rfl
  · have hfold : (((progs.foldl processProgramme (channelPass streams chans)).map
        (fun e => e.id))).Nodup := by
      refine @foldl_inv _ _ (fun m => (m.map (fun e => e.id)).Nodup)
        processProgramme (fun m p hm => ?_) progs (channelPass streams chans) hpass
      rcases processProgramme_cases m p with h | ⟨epg, _, _, h⟩
      · rw [h]
        exact hm
      · rw [h]
        exact nodup_ids_amInsert m _ hm
    exact hfold.sublist (List.Sublist.map _ (List.filter_sublist _))

/-! ## Claim C8 -/

/-- Properties of a decimal digit character produced by `natToCharsAux`. -/
theorem digit_char_props (k : Nat) (hk : k < 10) :
    (Char.ofNat (48 + k)).isDigit = true ∧ csIsSpace (Char.ofNat (48 + k)) = false ∧
    Char.ofNat (48 + k) ≠ '-' ∧ Char.ofNat (48 + k) ≠ '+' ∧
    (Char.ofNat (48 + k)).toNat = 48 + k := by
  interval_cases k <;> exact ⟨by decide, by decide, by decide, by decide, by decide⟩

/-- Peeling the last digit off a digit-string value. -/
theorem natOfDigits_append (l : List Char) (c : Char) :
    natOfDigits (l ++ [c]) = natOfDigits l * 10 + (c.toNat - 48) := by
  unfold natOfDigits
  rw [List.foldl_append]
  rfl

/-- The digit loop of `std::to_string`: with positive fuel bounding the
digit count it prepends to `acc` a nonempty list of decimal digit characters
whose value is `n`. -/
theorem natToCharsAux_spec :
    ∀ (fuel n : Nat) (acc : List Char), 0 < fuel → n < 10 ^ fuel →
      ∃ ds : List Char, natToCharsAux fuel n acc = ds ++ acc ∧ ds ≠ [] ∧
        (∀ c ∈ ds, ∃ k, k < 10 ∧ c = Char.ofNat (48 + k)) ∧ natOfDigits ds = n
  | 0, _, _, hf, _ => absurd hf (by omega)
  | fuel + 1, n, acc, _, h => by
    unfold natToCharsAux
    by_cases h10 : n < 10
    · rw [if_pos h10]
      refine ⟨[Char.ofNat (48 + n)], rfl, by simp, ?_, ?_⟩
      · intro c hc
        rw [List.mem_singleton] at hc
        exact ⟨n, h10, hc⟩
      · have ht := (digit_char_props n h10).2.2.2.2
        simp only [natOfDigits, List.foldl_cons, List.foldl_nil, ht]
        omega
    · rw [if_neg h10]
      have hfuel : 0 < fuel := by
        by_contra hf0
        have : fuel = 0 := by omega
        subst this
        simp at h
        omega
      have hdiv : n / 10 < 10 ^ fuel := by
        rw [Nat.div_lt_iff_lt_mul (by norm_num)]
        calc n < 10 ^ (fuel + 1) := h
          _ = 10 ^ fuel * 10 := by ring
      obtain ⟨ds, heq, hne, hdig, hval⟩ :=
        natToCharsAux_spec fuel (n / 10) (Char.ofNat (48 + n % 10) :: acc) hfuel hdiv
      refine ⟨ds ++ [Char.ofNat (48 + n % 10)], by rw [heq]; simp, by simp, ?_, ?_⟩
      · intro c hc
        rcases List.mem_append.mp hc with hc | hc
        · exact hdig c hc
        · rw [List.mem_singleton] at hc
          exact ⟨n % 10, Nat.mod_lt _ (by norm_num), hc⟩
      · rw [natOfDigits_append, hval,
          (digit_char_props (n % 10) (Nat.mod_lt _ (by norm_num))).2.2.2.2]
        omega

/-- `natToChars n` is a nonempty list of decimal digit characters whose
value is `n`. -/
theorem natToChars_spec (n : Nat) :
    natToChars n ≠ [] ∧
    (∀ c ∈ natToChars n, ∃ k, k < 10 ∧ c = Char.ofNat (48 + k)) ∧
    natOfDigits (natToChars n) = n := by
  have h1 : n < 10 ^ n := Nat.lt_pow_self (by norm_num) n
  have h2 : (10 : Nat) ^ n ≤ 10 ^ (n + 1) :=
    Nat.pow_le_pow_right (by norm_num) (Nat.le_succ n)
  obtain ⟨ds, heq, hne, hdig, hval⟩ :=
    natToCharsAux_spec (n + 1) n [] (by omega) (lt_of_lt_of_le h1 h2)
  rw [List.append_nil] at heq
  rw [natToChars, heq]
  exact ⟨hne, hdig, hval⟩

/-- A list of decimal digit characters is consumed whole by a
digit-`takeWhile`. -/
theorem takeWhile_isDigit_all :
    ∀ l : List Char, (∀ c ∈ l, ∃ k, k < 10 ∧ c = Char.ofNat (48 + k)) →
      l.takeWhile Char.isDigit = l
  | [], _ => rfl
  | c :: cs, h => by
    obtain ⟨k, hk, hc⟩ := h c (List.mem_cons_self _ _)
    rw [List.takeWhile_cons, hc, (digit_char_props k hk).1]
    simp only [if_true]
    rw [takeWhile_isDigit_all cs (fun c hcm => h c (List.mem_cons_of_mem _ hcm))]

/-- `strtol` on the decimal rendering of `n < 2^63` consumes all
characters and returns `n`. -/
theorem strtolModel_natToChars (n : Nat) (h : (n : Int) < 9223372036854775808) :
    strtolModel (natToChars n) = ((n : Int), (natToChars n).length) := by
  obtain ⟨hne, hdig, hval⟩ := natToChars_spec n
  obtain ⟨c, cs, hcons⟩ : ∃ c cs, natToChars n = c :: cs := by
    cases hl : natToChars n with
    | nil => exact absurd hl hne
    | cons c cs => exact ⟨c, cs, rfl⟩
  obtain ⟨k, hk, hc⟩ := hdig c (hcons ▸ List.mem_cons_self _ _)
  have hspace : csIsSpace c = false := hc ▸ (digit_char_props k hk).2.1
  have hminus : c ≠ '-' := hc ▸ (digit_char_props k hk).2.2.1
  have hplus : c ≠ '+' := hc ▸ (digit_char_props k hk).2.2.2.1
  have hdw : (natToChars n).dropWhile csIsSpace = c :: cs := by
    rw [hcons]
    simp [List.dropWhile_cons, hspace]
  have htw : (natToChars n).takeWhile csIsSpace = [] := by
    rw [hcons]
    simp [List.takeWhile_cons, hspace]
  have hds : (c :: cs).takeWhile Char.isDigit = c :: cs :=
    takeWhile_isDigit_all (c :: cs) (hcons ▸ hdig)
  unfold strtolModel
  rw [hdw, htw]
  rw [if_neg (by simp [hminus]), if_neg (by simp [hplus])]
  unfold strtolDigits
  rw [hds, if_neg (by simp)]
  rw [hcons] at hval
  rw [if_neg (by simp : ¬(false = true))]
  rw [hval]
  unfold strtolClamp
  rw [if_neg (by omega : ¬((n : Int) > 9223372036854775807)),
    if_neg (by omega : ¬((n : Int) < -9223372036854775808))]
  rw [hcons]
  simp

/-- `std::to_string` of a positive `int`. -/
theorem intToChars_pos (sid : Int) (h : 0 < sid) :
    intToChars sid = natToChars sid.toNat := by
  unfold intToChars
  rw [if_neg (by omega)]

/-- A successful name lookup returns the id of some catalog stream with a
positive id. -/
theorem lookupNameId_aux (lname : List Char) :
    ∀ (ss : List LiveStream) (acc : Option Int) (sid : Int),
      List.foldl
        (fun acc s =>
          if 0 < s.id then (if toLowerStr s.name = lname then some s.id else acc)
          else acc)
        acc ss = some sid →
      acc = some sid ∨ ∃ s ∈ ss, 0 < s.id ∧ s.id = sid
  | [], acc, sid, h => Or.inl h
  | s :: ss, acc, sid, h => by
    rcases lookupNameId_aux lname ss _ sid h with h1 | ⟨s', hs', h0, hid⟩
    · dsimp only at h1
      by_cases hp : 0 < s.id
      · rw [if_pos hp] at h1
        by_cases hnm : toLowerStr s.name = lname
        · rw [if_pos hnm] at h1
          exact Or.inr ⟨s, List.mem_cons_self _ _, hp, Option.some_inj.mp h1⟩
        · rw [if_neg hnm] at h1
          exact Or.inl h1
      · rw [if_neg hp] at h1
        exact Or.inl h1
    · exact Or.inr ⟨s', List.mem_cons_of_mem _ hs', h0, hid⟩

/-- The id returned by the display-name fallback is a positive catalog
stream id. -/
theorem lookupNameId_pos (streams : List LiveStream) (lname : List Char) (sid : Int)
    (h : lookupNameId streams lname = some sid) :
    ∃ s ∈ streams, 0 < s.id ∧ s.id = sid := by
  rcases lookupNameId_aux lname streams none sid h with h1 | h1
  · exact absurd h1 (by simp)
  · exact h1

/-- Membership in the stream-id map from a witnessing catalog stream. -/
theorem hasStreamId_of_mem (streams : List LiveStream) (s : LiveStream)
    (hmem : s ∈ streams) (h0 : 0 < s.id) (sid : Int) (hid : s.id = sid) :
    hasStreamId streams sid = true := by
  unfold hasStreamId
  rw [List.any_eq_true]
  refine ⟨s, hmem, ?_⟩
  simp only [Bool.and_eq_true, decide_eq_true_eq]
  exact ⟨h0, hid⟩

/-- `static_cast<int>` is the identity on positive values below `2^31`. -/
theorem toInt32_pos_small (v : Int) (h0 : 0 < v) (h : v < 2147483648) :
    toInt32 v = v := by
  unfold toInt32
  rw [Int.emod_eq_of_lt (by omega) (by omega)]
  simp only [if_neg (by omega : ¬v ≥ 2147483648)]

/-- C8 counterexample: with a catalog containing stream id 101 and no
display name given, the xmltv id `"4294967397"` (which is `101 + 2^32`, not
equal to any catalog id) resolves to the join key `"101"`: `strtol` parses
the whole attribute as a positive `long` and the `static_cast<int>` wraps it
to 101, so the claim's fallthrough to the verbatim xmltv id does not
happen. -/
theorem c8_counterexample :
    (∀ s ∈ [(⟨101, 0, 0, "News".toList, []⟩ : LiveStream)], s.id ≠ 4294967397) ∧
    resolveJoinKey [⟨101, 0, 0, "News".toList, []⟩] ("4294967397".toList) [] =
      "101".toList ∧
    "101".toList ≠ "4294967397".toList := by
  refine ⟨by decide, by decide, by decide⟩

/-- C8 (amended): (1) when `strtol` consumes the whole xmltv id with a
positive result whose `static_cast<int>` image (wrap modulo `2^32` on an
LP64 platform) is a catalog stream id, the join key is that image rendered
as text, regardless of any display-name match; (2) for a catalog of
`int`-ranged ids this is the only case in which a stream-derived key can
equal the xmltv id, since a name-fallback key never equals it; (3)
otherwise a nonempty display name is matched case-insensitively, and
failing both, the join key is the xmltv id verbatim. -/
theorem c8_thm (streams : List LiveStream) (xid dn : List Char) :
    ((strtolModel xid).2 = xid.length → 0 < (strtolModel xid).1 →
      hasStreamId streams (toInt32 (strtolModel xid).1) = true →
      resolveJoinKey streams xid dn = intToChars (toInt32 (strtolModel xid).1)) ∧
    (∀ sid : Int, (∀ s ∈ streams, s.id < 2147483648) →
      ¬((strtolModel xid).2 = xid.length ∧ 0 < (strtolModel xid).1 ∧
        hasStreamId streams (toInt32 (strtolModel xid).1) = true) →
      dn ≠ [] → lookupNameId streams (toLowerStr dn) = some sid →
      resolveJoinKey streams xid dn = intToChars sid ∧ intToChars sid ≠ xid) ∧
    (¬((strtolModel xid).2 = xid.length ∧ 0 < (strtolModel xid).1 ∧
        hasStreamId streams (toInt32 (strtolModel xid).1) = true) →
      (dn = [] ∨ lookupNameId streams (toLowerStr dn) = none) →
      resolveJoinKey streams xid dn = xid) := by
  refine ⟨?_, ?_, ?_⟩
  · intro h1 h2 h3
    unfold resolveJoinKey
    rw [if_pos ⟨h1, h2, h3⟩]
  · intro sid hbound hn hdn hlk
    obtain ⟨s, hsmem, hs0, hsid⟩ := lookupNameId_pos streams (toLowerStr dn) sid hlk
    have hsid0 : 0 < sid := hsid ▸ hs0
    have hsidlt : sid < 2147483648 := hsid ▸ hbound s hsmem
    constructor
    · unfold resolveJoinKey
      rw [if_neg hn, if_neg hdn, hlk]
    · intro heq
      apply hn
      have hxid : xid = natToChars sid.toNat := by
        rw [← heq, intToChars_pos sid hsid0]
      have hcast : ((sid.toNat : Nat) : Int) = sid := Int.toNat_of_nonneg (by omega)
      have hstr : strtolModel xid = (sid, xid.length) := by
        rw [hxid, strtolModel_natToChars sid.toNat (by omega), hcast]
      refine ⟨by rw [hstr], by rw [hstr]; exact hsid0, ?_⟩
      rw [hstr]
      show hasStreamId streams (toInt32 sid) = true
      rw [toInt32_pos_small sid hsid0 hsidlt]
      exact hasStreamId_of_mem streams s hsmem hs0 sid hsid
  · intro hn hrest
    unfold resolveJoinKey
    rw [if_neg hn]
    rcases hrest with hdn | hlk
    · rw [if_pos hdn]
    · by_cases hdn : dn = []
      · rw [if_pos hdn]
      · rw [if_neg hdn, hlk]

/-- C8 witness: both interesting branches at concrete inputs — the id match
winning over a name match, and the name fallback with its key differing from
the xmltv id. -/
theorem c8_witness :
    resolveJoinKey
      [⟨101, 0, 0, "News".toList, []⟩, ⟨7, 0, 0, "Chan".toList, []⟩]
      ("101".toList) ("Chan".toList) = "101".toList ∧
    resolveJoinKey [⟨7, 0, 0, "News".toList, []⟩] ("abc".toList) ("News".toList) =
      "7".toList ∧
    ("7".toList : List Char) ≠ "abc".toList := by
  refine ⟨?_, ?_, ?_⟩
  · have h := (c8_thm
      [⟨101, 0, 0, "News".toList, []⟩, ⟨7, 0, 0, "Chan".toList, []⟩]
      ("101".toList) ("Chan".toList)).1 (by decide) (by decide) (by decide)
    rw [h]
    decide
  · have h := (c8_thm [⟨7, 0, 0, "News".toList, []⟩]
      ("abc".toList) ("News".toList)).2.1 7 (by decide) (by decide) (by decide)
      (by decide)
    rw [h.1]
    decide
  · have h := (c8_thm [⟨7, 0, 0, "News".toList, []⟩]
      ("abc".toList) ("News".toList)).2.1 7 (by decide) (by decide) (by decide)
      (by decide)
    exact fun hcontra => h.2 hcontra

end XC
